import Mathlib

/-!
Shallow embedding of the Green-Browsing-Tracker core, translated from the
extension's JavaScript sources:

* `service_worker.js` (`saveVisit`, the ingestion path: dedup by `id`,
  FIFO capacity trim at 10 000, incremental by-day / by-origin aggregates);
* `content_script.js` (alert logic: `getCumulativeCO2ForOrigin`,
  `evaluateAlert`, with the `* 10 * 1000` window/cooldown multipliers as
  written in the source);
* `dashboard.js` (`safeParseVisits`, the 7-day CO2 series, the top-sites
  ordering).

JavaScript numbers are modelled as rationals (`Rat`), timestamps as integer
milliseconds (`Int`), absent fields as `Option`.  `JSON.parse` and
`Array.prototype.sort` are platform builtins: the former is modelled as an
explicit parse-function parameter, the latter as a stable sort (stability is
mandated by ECMAScript 2019).
-/

set_option maxHeartbeats 1000000

/-- An aggregate bucket `{visits, bytes, co2}` as created by `saveVisit`
(`{visits:0, bytes:0, co2:0}` on first reference). -/
structure Agg where
  visits : Nat
  bytes : Rat
  co2 : Rat
  deriving DecidableEq, Repr

/-- The fresh bucket `{visits:0, bytes:0, co2:0}`. -/
def Agg.init : Agg := ⟨0, 0, 0⟩

/-- A `VisitRecord` as it reaches `saveVisit`.  `id` and `origin` are
`Option` because the source reads them without validating presence;
`ts` is `none` when `new Date(ts)` would be an Invalid Date (absent field);
`transferBytes` is `none` when absent (the source normalizes with
`transferBytes || 0`). -/
structure VisitRec where
  vid : Option String
  ts : Option Int
  origin : Option String
  transferBytes : Option Rat
  estimatedCO2_g : Rat
  deriving DecidableEq, Repr

/-- The UTC calendar day of a millisecond timestamp, standing in for
`new Date(ts).toISOString().slice(0,10)`: floor-division by 86 400 000 ms. -/
def dayOf (t : Int) : Int := Int.fdiv t 86400000

/-- Association-list update mirroring
`m[k] = m[k] || {visits:0,bytes:0,co2:0}; <increment m[k]>` on a JS object:
the key keeps its first-insertion position, a new key goes to the end. -/
def updAssoc {κ : Type} [DecidableEq κ] (k : κ) (f : Agg → Agg) :
    List (κ × Agg) → List (κ × Agg)
  | [] => [(k, f Agg.init)]
  | (k0, a) :: rest =>
      if k0 = k then (k0, f a) :: rest else (k0, a) :: updAssoc k f rest

/-- Association-list lookup (`m[k]`, `undefined` when absent). -/
def lookupA {κ : Type} [DecidableEq κ] (k : κ) :
    List (κ × Agg) → Option Agg
  | [] => none
  | (k0, a) :: rest => if k0 = k then some a else lookupA k rest

/-- The three increments `visits += 1; bytes += b; co2 += c` of `saveVisit`. -/
def bump (b c : Rat) (a : Agg) : Agg :=
  ⟨a.visits + 1, a.bytes + b, a.co2 + c⟩

/-- The stored state: the `visits` array and the `aggregates` object
(`byOrigin`, `byDay`), as kept in `chrome.storage.local`. -/
structure Store where
  visits : List VisitRec
  byOrigin : List (Option String × Agg)
  byDay : List (Int × Agg)
  deriving DecidableEq, Repr

/-- Initial storage: no visits, empty aggregate maps. -/
def emptyStore : Store := ⟨[], [], []⟩

/-- Capacity of the visits log: `while (visits.length > 10000) visits.shift()`. -/
def maxVisits : Nat := 10000

/-- `while (l.length > k) l.shift()`: drop the oldest entries until at most
`k` remain. -/
def trimTo {α : Type} (k : Nat) (l : List α) : List α :=
  l.drop (l.length - k)

/-- The field overwrite at the top of `saveVisit`:
`record.estimatedCO2_g = (transferBytes || 0) * settings.co2Factor_g_per_byte`
(the caller-supplied `estimatedCO2_g` is discarded).  The parallel
`estimatedEnergy_mJ` assignment is not tracked: no claim reads it. -/
def normalizeVisit (cf : Rat) (r : VisitRec) : VisitRec :=
  { r with estimatedCO2_g := r.transferBytes.getD 0 * cf }

/-- `saveVisit(record)` from `service_worker.js`, with the CO2 factor `cf`
taken from settings.  When `ts` is absent, `new Date(ts).toISOString()`
throws inside the `try`, the exception is logged and no storage write
happens, so the state is unchanged.  Otherwise: push unless some stored
visit has the same `id`, trim to 10 000 from the front, and increment both
aggregate buckets unconditionally (exactly as the source does, including
for duplicate ids). -/
def saveVisit (cf : Rat) (s : Store) (r : VisitRec) : Store :=
  let r' := normalizeVisit cf r
  match r.ts with
  | none => s
  | some t =>
      let pushed :=
        if s.visits.any (fun v => v.vid == r'.vid) then s.visits
        else s.visits ++ [r']
      let b := r.transferBytes.getD 0
      { visits := trimTo maxVisits pushed
        byOrigin := updAssoc r'.origin (bump b r'.estimatedCO2_g) s.byOrigin
        byDay := updAssoc (dayOf t) (bump b r'.estimatedCO2_g) s.byDay }

/-- A sequence of `saveVisit` calls under one settings value. -/
def runIngest (cf : Rat) (s : Store) (rs : List VisitRec) : Store :=
  rs.foldl (saveVisit cf) s

/-! ## Alert engine (content_script.js) -/

/-- The alert-relevant settings, with the source's `DEFAULT_SETTINGS` values
`{alert_enabled:true, alert_co2_threshold_g:10, alert_time_threshold_s:30,
alert_window_minutes:10, alert_check_interval_s:10, alert_cooldown_min:5}`
available as fallbacks. -/
structure AlertSettings where
  alert_enabled : Bool
  alert_co2_threshold_g : Rat
  alert_time_threshold_s : Nat
  alert_window_minutes : Nat
  alert_cooldown_min : Nat
  deriving DecidableEq, Repr

/-- The JS fallback idiom `SETTINGS.x || DEFAULT_SETTINGS.x` on a numeric
field: the stored value is replaced by the default when it is falsy (0). -/
def orDefaultNat (v d : Nat) : Nat := if v = 0 then d else v

/-- `SETTINGS.x || DEFAULT_SETTINGS.x` for a real-valued field. -/
def orDefaultRat (v d : Rat) : Rat := if v = 0 then d else v

/-- The windowed sum of `getCumulativeCO2ForOrigin`:
`windowMs = alert_window_minutes * 10 * 1000`; a visit contributes its
`estimatedCO2_g` when its timestamp is truthy, `now - ts <= windowMs`
(no lower bound on `now - ts`, so future timestamps also pass) and its
origin equals the page origin.  The `v.host` / `new URL(v.url)` fallbacks
for records lacking `origin` are not modelled: every record compared here
carries `origin`. -/
def windowSumFor (visits : List VisitRec) (origin : String) (now : Int)
    (windowMinutes : Nat) : Rat :=
  visits.foldl
    (fun acc v =>
      match v.ts with
      | none => acc
      | some ts =>
          if ts = 0 then acc
          else if now - ts > (windowMinutes : Int) * 10 * 1000 then acc
          else if v.origin = some origin then acc + v.estimatedCO2_g
          else acc)
    0

/-- Outcome of one `evaluateAlert` call: whether the alert fired, the window
sum if the evaluation reached it (`none` when it returned earlier), and the
origin's `lastAlertTimes` entry afterwards. -/
structure EvalResult where
  fired : Bool
  windowSum : Option Rat
  lastAlert : Option Int
  deriving DecidableEq, Repr

/-- `evaluateAlert()` from `content_script.js`: no-op when alerts are
disabled or `activeSeconds` is below the (fallback-defaulted) time
threshold; otherwise compute the window sum, compare against the CO2
threshold, then apply the cooldown check
`cooldownMs = alert_cooldown_min * 10 * 1000`,
`if (lastTs && (now - lastTs) < cooldownMs) return`, and on firing record
`lastAlertTimes[origin] = now`. -/
def evaluateAlert (S : AlertSettings) (activeSeconds : Nat)
    (visits : List VisitRec) (origin : String) (now : Int)
    (lastAlert : Option Int) : EvalResult :=
  if !S.alert_enabled then ⟨false, none, lastAlert⟩
  else if activeSeconds < orDefaultNat S.alert_time_threshold_s 30 then
    ⟨false, none, lastAlert⟩
  else
    let sum := windowSumFor visits origin now
      (orDefaultNat S.alert_window_minutes 10)
    if sum < orDefaultRat S.alert_co2_threshold_g 10 then
      ⟨false, some sum, lastAlert⟩
    else
      let lastTs : Int := lastAlert.getD 0
      let cooldownMs : Int := (orDefaultNat S.alert_cooldown_min 5 : Int) * 10 * 1000
      if lastTs ≠ 0 ∧ now - lastTs < cooldownMs then ⟨false, some sum, lastAlert⟩
      else ⟨true, some sum, some now⟩

/-! ## Dashboard (dashboard.js) -/

/-- A JavaScript value, as far as `safeParseVisits` can observe one. -/
inductive JSValue where
  | vNull
  | vBool (b : Bool)
  | vNum (q : Rat)
  | vStr (s : String)
  | vArr (elems : List JSValue)
  | vObj (fields : List (String × JSValue))

/-- Whether a `JSValue` is a JS array (`Array.isArray`). -/
def JSValue.isArray : JSValue → Bool
  | .vArr _ => true
  | _ => false

/-- The possible shapes of the `raw` argument of `safeParseVisits`,
distinguished the way the source distinguishes them (`!raw`,
`Array.isArray`, `typeof`).  NaN is not modelled. -/
inductive RawInput where
  | undef
  | null
  | bool (b : Bool)
  | num (q : Rat)
  | str (s : String)
  | arr (elems : List JSValue)
  | obj (fields : List (String × JSValue))

/-- JS falsiness of a `RawInput` (`!raw`): `undefined`, `null`, `false`,
`0` and the empty string are falsy. -/
def RawInput.isFalsy : RawInput → Bool
  | .undef => true
  | .null => true
  | .bool b => !b
  | .num q => q == 0
  | .str s => s.isEmpty
  | _ => false

/-- `safeParseVisits(raw)` from `dashboard.js`.  `JSON.parse` is a platform
builtin, modelled by the explicit parameter `parse` (`none` models a parse
that throws, caught by the source's `try/catch`).  Branch order follows the
source: falsy check, `Array.isArray`, `typeof raw === 'string'`,
`typeof raw === 'object'`, final `return []`. -/
def safeParseVisits (parse : String → Option JSValue) (raw : RawInput) :
    JSValue :=
  if raw.isFalsy then .vArr []
  else
    match raw with
    | .arr l => .vArr l
    | .str s =>
        match parse s with
        | some v => v
        | none => .vArr []
    | .obj f => .vArr [.vObj f]
    | .null => .vArr [.vNull]
    | _ => .vArr []

/-- The day keys of the 7-day chart in `refresh()`: the loop
`for (let i = N-1; i >= 0; --i) daysArr.push(isoDay(today - i))`, with
calendar days modelled as integer day numbers. -/
def daysArr (today : Int) (N : Nat) : List Int :=
  (List.range N).map (fun k : Nat => today - ((N : Int) - 1 - (k : Int)))

/-- One chart entry:
`Number((ag.byDay && ag.byDay[day] && Number(ag.byDay[day].co2)) || 0)` —
the bucket's CO2 total, `0` when the day has no bucket. -/
def dayCo2 (byDay : List (Int × Agg)) (d : Int) : Rat :=
  ((lookupA d byDay).map Agg.co2).getD 0

/-- The chart data series
`const co2PerDay = daysArr.map(day => ... byDay[day].co2 ... || 0)`:
the last `N` calendar days ending `today`, oldest first. -/
def co2PerDay (today : Int) (N : Nat) (byDay : List (Int × Agg)) : List Rat :=
  (daysArr today N).map (dayCo2 byDay)

/-- One step of the stable descending-by-bytes sort that models
`entries.sort((a,b) => (b[1].bytes||0) - (a[1].bytes||0))`
(`Array.prototype.sort` is stable per ECMAScript 2019): insert an entry
after every already-placed entry with `bytes` greater or equal, before the
first strictly smaller one. -/
def insertByBytesDesc (x : (Option String × Agg)) :
    List (Option String × Agg) → List (Option String × Agg)
  | [] => [x]
  | y :: ys =>
      if x.2.bytes ≤ y.2.bytes then y :: insertByBytesDesc x ys
      else x :: y :: ys

/-- The sorted entry list
`Object.entries(ag.byOrigin).sort((a,b) => (b[1].bytes||0)-(a[1].bytes||0))`,
processing entries in object-insertion (first-seen) order. -/
def sortByBytesDesc (l : List (Option String × Agg)) :
    List (Option String × Agg) :=
  l.foldl (fun acc x => insertByBytesDesc x acc) []

/-- `byOriginSnapshot(topK)`: the sorted origin entries truncated with
`.slice(0, topK)` (the dashboard instantiates `topK = 10`). -/
def byOriginSnapshot (topK : Nat) (byOrigin : List (Option String × Agg)) :
    List (Option String × Agg) :=
  (sortByBytesDesc byOrigin).take topK

/-! ## Derived accessors and comparison definitions -/

/-- `saveVisit` with the capacity trim removed, used to state that eviction
is a pure capacity action on the log and never alters the aggregates. -/
def saveVisitNoEvict (cf : Rat) (s : Store) (r : VisitRec) : Store :=
  let r' := normalizeVisit cf r
  match r.ts with
  | none => s
  | some t =>
      let pushed :=
        if s.visits.any (fun v => v.vid == r'.vid) then s.visits
        else s.visits ++ [r']
      let b := r.transferBytes.getD 0
      { visits := pushed
        byOrigin := updAssoc r'.origin (bump b r'.estimatedCO2_g) s.byOrigin
        byDay := updAssoc (dayOf t) (bump b r'.estimatedCO2_g) s.byDay }

/-- The `visits` counter of a bucket, `0` when the bucket is absent. -/
def aggVisits {κ : Type} [DecidableEq κ] (m : List (κ × Agg)) (k : κ) : Nat :=
  ((lookupA k m).map Agg.visits).getD 0

/-- The `co2` counter of a bucket, `0` when the bucket is absent. -/
def aggCo2 {κ : Type} [DecidableEq κ] (m : List (κ × Agg)) (k : κ) : Rat :=
  ((lookupA k m).map Agg.co2).getD 0

/-- Sum of the `visits` counters over all buckets of an aggregate map. -/
def totalAggVisits {κ : Type} (m : List (κ × Agg)) : Nat :=
  (m.map (fun e => e.2.visits)).sum

/-- Modelled from the spec: the windowed CO2 sum with `windowMinutes` read
as literal minutes over the inclusive interval `[now - windowMinutes, now]`
(the spec's stated semantics, which `content_script.js` does not implement).
Used only to exhibit the divergence of the source's window arithmetic. -/
def windowSumLiteralMinutes (visits : List VisitRec) (origin : String)
    (now : Int) (windowMinutes : Nat) : Rat :=
  visits.foldl
    (fun acc v =>
      match v.ts with
      | none => acc
      | some ts =>
          if now - (windowMinutes : Int) * 60 * 1000 ≤ ts ∧ ts ≤ now
              ∧ v.origin = some origin then
            acc + v.estimatedCO2_g
          else acc)
    0

/-! ## Concrete inputs used by the claim-level evidence -/

/-- A record with id, origin and timestamp present; the caller-supplied
`estimatedCO2_g = 7` is there to show it gets overwritten. -/
def rDup : VisitRec := ⟨some "r1", some 0, some "a.test", some 100, 7⟩

/-- A second concrete record, used for the aggregate/log mismatch. -/
def rB1 : VisitRec := ⟨some "b1", some 86400000, some "b.test", some 50, 0⟩

/-- A record missing both `id` and `origin` but carrying a timestamp. -/
def rNoId : VisitRec := ⟨none, some 0, none, some 10, 0⟩

/-- Two distinct well-formed records for witness instantiations. -/
def rW1 : VisitRec := ⟨some "w1", some 1000, some "w.test", some 3, 0⟩

/-- Second witness record, distinct id and origin. -/
def rW2 : VisitRec := ⟨some "w2", some 2000, some "v.test", some 4, 0⟩

/-- A reference instant for the alert scenarios (milliseconds). -/
def now0 : Int := 1700000000000

/-- A visit of origin `a.test` with 2 g of CO2, timestamped 4 minutes
(240 000 ms) before `now0` — inside the spec's 10-minute window, outside
the source's `10 * 10 * 1000 = 100 000` ms window. -/
def fourMinVisit (i : String) : VisitRec :=
  ⟨some i, some (now0 - 240000), some "a.test", some 2, 2⟩

/-- A visit of origin `a.test` with 2 g of CO2, timestamped 50 s before
`now0` — inside even the source's 100 000 ms window. -/
def recentVisit (i : String) : VisitRec :=
  ⟨some i, some (now0 - 50000), some "a.test", some 2, 2⟩

/-- The by-origin aggregate of claim P7: `A` and `B` tie at 300 bytes with
`A` first seen first, `C` has 100 bytes. -/
def demoOrigins : List (Option String × Agg) :=
  [(some "A", ⟨1, 300, 0⟩), (some "B", ⟨1, 300, 0⟩), (some "C", ⟨1, 100, 0⟩)]

/-- A `JSON.parse` oracle recording one fact of the JSON grammar: the
well-formed text `"0"` denotes the number `0`; every other string is
treated as malformed. -/
def parse0 : String → Option JSValue :=
  fun s => if s = "0" then some (.vNum 0) else none

/-! ## Helper lemmas about the aggregate maps -/

theorem lookupA_updAssoc_self {κ : Type} [DecidableEq κ] (k : κ)
    (f : Agg → Agg) (m : List (κ × Agg)) :
    lookupA k (updAssoc k f m) = some (f ((lookupA k m).getD Agg.init)) := by
  induction m with
  | nil => simp [updAssoc, lookupA]
  | cons e rest ih =>
      obtain ⟨k0, a⟩ := e
      by_cases h : k0 = k <;> simp [updAssoc, lookupA, h, ih]

theorem lookupA_updAssoc_ne {κ : Type} [DecidableEq κ] {k k' : κ}
    (f : Agg → Agg) (m : List (κ × Agg)) (h : k' ≠ k) :
    lookupA k' (updAssoc k f m) = lookupA k' m := by
  have hk : k ≠ k' := Ne.symm h
  induction m with
  | nil => simp [updAssoc, lookupA, hk]
  | cons e rest ih =>
      obtain ⟨k0, a⟩ := e
      by_cases h0 : k0 = k
      · subst h0
        simp [updAssoc, lookupA, hk]
      · by_cases h1 : k0 = k' <;> simp [updAssoc, lookupA, h0, h1, h, ih]

theorem aggVisits_updAssoc {κ : Type} [DecidableEq κ] (m : List (κ × Agg))
    (k k' : κ) (b c : Rat) :
    aggVisits (updAssoc k (bump b c) m) k'
      = aggVisits m k' + (if k' = k then 1 else 0) := by
  by_cases h : k' = k
  · subst h
    simp only [aggVisits, lookupA_updAssoc_self, if_pos rfl]
    cases lookupA k' m <;> simp [bump, Agg.init]
  · simp [aggVisits, lookupA_updAssoc_ne _ _ h, h]

theorem aggCo2_updAssoc {κ : Type} [DecidableEq κ] (m : List (κ × Agg))
    (k k' : κ) (b c : Rat) :
    aggCo2 (updAssoc k (bump b c) m) k'
      = aggCo2 m k' + (if k' = k then c else 0) := by
  by_cases h : k' = k
  · subst h
    simp only [aggCo2, lookupA_updAssoc_self, if_pos rfl]
    cases lookupA k' m <;> simp [bump, Agg.init]
  · simp [aggCo2, lookupA_updAssoc_ne _ _ h, h]

theorem totalAggVisits_updAssoc {κ : Type} [DecidableEq κ]
    (m : List (κ × Agg)) (k : κ) (b c : Rat) :
    totalAggVisits (updAssoc k (bump b c) m) = totalAggVisits m + 1 := by
  induction m with
  | nil => simp [updAssoc, totalAggVisits, bump, Agg.init]
  | cons e rest ih =>
      obtain ⟨k0, a⟩ := e
      by_cases h : k0 = k <;>
        simp [updAssoc, totalAggVisits, bump, h] <;>
        simp [totalAggVisits] at ih <;> omega

/-! ## Step and fold lemmas for the ingestion path -/

theorem aggVisits_saveVisit_byOrigin (cf : Rat) (s : Store) (r : VisitRec)
    (k : Option String) :
    aggVisits (saveVisit cf s r).byOrigin k
      = aggVisits s.byOrigin k
        + (if r.ts.isSome ∧ r.origin = k then 1 else 0) := by
  cases hts : r.ts with
  | none => simp [saveVisit, hts]
  | some t =>
      simp only [saveVisit, hts, normalizeVisit, aggVisits_updAssoc]
      by_cases h : r.origin = k
      · simp [h]
      · have h' : ¬ k = r.origin := fun e => h e.symm
        simp [h, h']

theorem aggVisits_saveVisit_byDay (cf : Rat) (s : Store) (r : VisitRec)
    (d : Int) :
    aggVisits (saveVisit cf s r).byDay d
      = aggVisits s.byDay d
        + (if r.ts.map dayOf = some d then 1 else 0) := by
  cases hts : r.ts with
  | none => simp [saveVisit, hts]
  | some t =>
      simp only [saveVisit, hts, normalizeVisit, aggVisits_updAssoc,
        Option.map_some]
      by_cases h : dayOf t = d <;> simp [h, eq_comm]

theorem aggCo2_saveVisit_byOrigin (cf : Rat) (s : Store) (r : VisitRec)
    (k : Option String) :
    aggCo2 (saveVisit cf s r).byOrigin k
      = aggCo2 s.byOrigin k
        + (if r.ts.isSome ∧ r.origin = k then r.transferBytes.getD 0 * cf
           else 0) := by
  cases hts : r.ts with
  | none => simp [saveVisit, hts]
  | some t =>
      simp only [saveVisit, hts, normalizeVisit, aggCo2_updAssoc]
      by_cases h : r.origin = k
      · simp [h]
      · have h' : ¬ k = r.origin := fun e => h e.symm
        simp [h, h']

theorem aggCo2_saveVisit_byDay (cf : Rat) (s : Store) (r : VisitRec)
    (d : Int) :
    aggCo2 (saveVisit cf s r).byDay d
      = aggCo2 s.byDay d
        + (if r.ts.map dayOf = some d then r.transferBytes.getD 0 * cf
           else 0) := by
  cases hts : r.ts with
  | none => simp [saveVisit, hts]
  | some t =>
      simp only [saveVisit, hts, normalizeVisit, aggCo2_updAssoc,
        Option.map_some]
      by_cases h : dayOf t = d <;> simp [h, eq_comm]

theorem totalAggVisits_saveVisit_byOrigin (cf : Rat) (s : Store)
    (r : VisitRec) :
    totalAggVisits (saveVisit cf s r).byOrigin
      = totalAggVisits s.byOrigin + (if r.ts.isSome then 1 else 0) := by
  cases hts : r.ts with
  | none => simp [saveVisit, hts]
  | some t => simp [saveVisit, hts, totalAggVisits_updAssoc]

theorem totalAggVisits_saveVisit_byDay (cf : Rat) (s : Store)
    (r : VisitRec) :
    totalAggVisits (saveVisit cf s r).byDay
      = totalAggVisits s.byDay + (if r.ts.isSome then 1 else 0) := by
  cases hts : r.ts with
  | none => simp [saveVisit, hts]
  | some t => simp [saveVisit, hts, totalAggVisits_updAssoc]

theorem aggVisits_runIngest_byOrigin (cf : Rat) (rs : List VisitRec) :
    ∀ (s : Store) (k : Option String),
      aggVisits (runIngest cf s rs).byOrigin k
        = aggVisits s.byOrigin k
          + rs.countP (fun r => r.ts.isSome && r.origin == k) := by
  induction rs with
  | nil => intro s k; simp [runIngest]
  | cons r rest ih =>
      intro s k
      have hstep : runIngest cf s (r :: rest)
          = runIngest cf (saveVisit cf s r) rest := rfl
      rw [hstep, ih, aggVisits_saveVisit_byOrigin, List.countP_cons]
      by_cases h1 : r.ts.isSome <;> by_cases h2 : r.origin = k <;>
        simp [h1, h2] <;> omega

theorem aggVisits_runIngest_byDay (cf : Rat) (rs : List VisitRec) :
    ∀ (s : Store) (d : Int),
      aggVisits (runIngest cf s rs).byDay d
        = aggVisits s.byDay d
          + rs.countP (fun r => r.ts.map dayOf == some d) := by
  induction rs with
  | nil => intro s d; simp [runIngest]
  | cons r rest ih =>
      intro s d
      have hstep : runIngest cf s (r :: rest)
          = runIngest cf (saveVisit cf s r) rest := rfl
      rw [hstep, ih, aggVisits_saveVisit_byDay, List.countP_cons]
      by_cases h : r.ts.map dayOf = some d <;> simp [h] <;> omega

theorem aggCo2_runIngest_byOrigin (cf : Rat) (rs : List VisitRec) :
    ∀ (s : Store) (k : Option String),
      aggCo2 (runIngest cf s rs).byOrigin k
        = aggCo2 s.byOrigin k
          + ((rs.filter (fun r => r.ts.isSome && r.origin == k)).map
              (fun r => r.transferBytes.getD 0)).sum * cf := by
  induction rs with
  | nil => intro s k; simp [runIngest]
  | cons r rest ih =>
      intro s k
      have hstep : runIngest cf s (r :: rest)
          = runIngest cf (saveVisit cf s r) rest := rfl
      rw [hstep, ih, aggCo2_saveVisit_byOrigin, List.filter_cons]
      by_cases h1 : r.ts.isSome <;> by_cases h2 : r.origin = k <;>
        simp [h1, h2] <;> ring

theorem aggCo2_runIngest_byDay (cf : Rat) (rs : List VisitRec) :
    ∀ (s : Store) (d : Int),
      aggCo2 (runIngest cf s rs).byDay d
        = aggCo2 s.byDay d
          + ((rs.filter (fun r => r.ts.map dayOf == some d)).map
              (fun r => r.transferBytes.getD 0)).sum * cf := by
  induction rs with
  | nil => intro s d; simp [runIngest]
  | cons r rest ih =>
      intro s d
      have hstep : runIngest cf s (r :: rest)
          = runIngest cf (saveVisit cf s r) rest := rfl
      rw [hstep, ih, aggCo2_saveVisit_byDay, List.filter_cons]
      by_cases h : r.ts.map dayOf = some d <;> simp [h] <;> ring

theorem totalAggVisits_runIngest_byOrigin (cf : Rat) (rs : List VisitRec) :
    ∀ (s : Store),
      totalAggVisits (runIngest cf s rs).byOrigin
        = totalAggVisits s.byOrigin + rs.countP (fun r => r.ts.isSome) := by
  induction rs with
  | nil => intro s; simp [runIngest]
  | cons r rest ih =>
      intro s
      have hstep : runIngest cf s (r :: rest)
          = runIngest cf (saveVisit cf s r) rest := rfl
      rw [hstep, ih, totalAggVisits_saveVisit_byOrigin, List.countP_cons]
      by_cases h : r.ts.isSome <;> simp [h] <;> omega

theorem totalAggVisits_runIngest_byDay (cf : Rat) (rs : List VisitRec) :
    ∀ (s : Store),
      totalAggVisits (runIngest cf s rs).byDay
        = totalAggVisits s.byDay + rs.countP (fun r => r.ts.isSome) := by
  induction rs with
  | nil => intro s; simp [runIngest]
  | cons r rest ih =>
      intro s
      have hstep : runIngest cf s (r :: rest)
          = runIngest cf (saveVisit cf s r) rest := rfl
      rw [hstep, ih, totalAggVisits_saveVisit_byDay, List.countP_cons]
      by_cases h : r.ts.isSome <;> simp [h] <;> omega

/-! ## Capacity and log-content lemmas -/

theorem length_trimTo_le {α : Type} (k : Nat) (l : List α) :
    (trimTo k l).length ≤ k := by
  simp [trimTo]
  omega

theorem saveVisit_length_le (cf : Rat) (s : Store) (r : VisitRec)
    (h : s.visits.length ≤ maxVisits) :
    (saveVisit cf s r).visits.length ≤ maxVisits := by
  cases hts : r.ts with
  | none => simpa [saveVisit, hts] using h
  | some t => simp [saveVisit, hts, length_trimTo_le]

theorem runIngest_length_le (cf : Rat) (rs : List VisitRec) :
    ∀ s : Store, s.visits.length ≤ maxVisits →
      (runIngest cf s rs).visits.length ≤ maxVisits := by
  induction rs with
  | nil => intro s h; exact h
  | cons r rest ih =>
      intro s h
      exact ih _ (saveVisit_length_le cf s r h)

theorem saveVisit_visits_mem (cf : Rat) (s : Store) (r : VisitRec) :
    ∀ v ∈ (saveVisit cf s r).visits, v ∈ s.visits ∨ v = normalizeVisit cf r := by
  cases hts : r.ts with
  | none =>
      intro v hv
      simp only [saveVisit, hts] at hv
      exact Or.inl hv
  | some t =>
      intro v hv
      simp only [saveVisit, hts, trimTo] at hv
      have hv2 := List.mem_of_mem_drop hv
      cases hany : s.visits.any (fun v => v.vid == (normalizeVisit cf r).vid) with
      | true =>
          rw [if_pos] at hv2
          · exact Or.inl hv2
          · exact hany
      | false =>
          rw [if_neg] at hv2
          · rcases List.mem_append.mp hv2 with h1 | h1
            · exact Or.inl h1
            · exact Or.inr (List.mem_singleton.mp h1)
          · simp [hany]

theorem runIngest_co2_normalized (cf : Rat) (rs : List VisitRec) :
    ∀ s : Store,
      (∀ v ∈ s.visits, v.estimatedCO2_g = v.transferBytes.getD 0 * cf) →
      ∀ v ∈ (runIngest cf s rs).visits,
        v.estimatedCO2_g = v.transferBytes.getD 0 * cf := by
  induction rs with
  | nil => intro s h; exact h
  | cons r rest ih =>
      intro s h
      apply ih
      intro v hv
      rcases saveVisit_visits_mem cf s r v hv with h1 | h1
      · exact h v h1
      · subst h1; simp [normalizeVisit]

theorem runIngest_visits_of_distinct (cf : Rat) :
    ∀ rs : List VisitRec,
      rs.Pairwise (fun a b => a.vid ≠ b.vid) →
      (∀ r ∈ rs, r.ts.isSome) →
      (runIngest cf emptyStore rs).visits
        = (rs.map (normalizeVisit cf)).drop (rs.length - maxVisits) := by
  intro rs
  induction rs using List.reverseRecOn with
  | nil => intro _ _; simp [runIngest, emptyStore]
  | append_singleton rs r ih =>
      intro hp hts
      rw [List.pairwise_append] at hp
      obtain ⟨hp1, _, hcross⟩ := hp
      have hdist : ∀ a ∈ rs, a.vid ≠ r.vid := by
        intro a ha
        exact hcross a ha r (by simp)
      have IH := ih hp1 (fun x hx => hts x (List.mem_append_left _ hx))
      have hrun : runIngest cf emptyStore (rs ++ [r])
          = saveVisit cf (runIngest cf emptyStore rs) r := by
        simp [runIngest, List.foldl_append]
      obtain ⟨t, ht⟩ := Option.isSome_iff_exists.mp
        (hts r (List.mem_append_right _ (by simp)))
      have hany : ((runIngest cf emptyStore rs).visits.any
          (fun v => v.vid == (normalizeVisit cf r).vid)) = false := by
        rw [List.any_eq_false]
        intro v hv
        rw [IH] at hv
        have hv2 : v ∈ rs.map (normalizeVisit cf) := List.mem_of_mem_drop hv
        obtain ⟨a, ha, rfl⟩ := List.mem_map.mp hv2
        simpa [normalizeVisit] using hdist a ha
      rw [hrun]
      simp only [saveVisit, ht, hany, Bool.false_eq_true, if_false]
      rw [IH]
      have h1 : (rs.map (normalizeVisit cf)).drop (rs.length - maxVisits)
            ++ [normalizeVisit cf r]
          = (rs.map (normalizeVisit cf) ++ [normalizeVisit cf r]).drop
              (rs.length - maxVisits) := by
        rw [List.drop_append_of_le_length]
        simp
      rw [h1]
      have h2 : (rs ++ [r]).map (normalizeVisit cf)
          = rs.map (normalizeVisit cf) ++ [normalizeVisit cf r] := by simp
      rw [h2]
      simp only [trimTo, List.drop_drop]
      have h4 : (rs.length - maxVisits)
            + (((rs.map (normalizeVisit cf) ++ [normalizeVisit cf r]).drop
                (rs.length - maxVisits)).length - maxVisits)
          = (rs ++ [r]).length - maxVisits := by
        simp only [List.length_drop, List.length_append, List.length_map,
          List.length_cons, List.length_nil]
        omega
      rw [h4]

theorem runIngest_oldest_absent (cf : Rat) (rs : List VisitRec)
    (hp : rs.Pairwise (fun a b => a.vid ≠ b.vid))
    (hts : ∀ r ∈ rs, r.ts.isSome) :
    ∀ r0 ∈ rs.take (rs.length - maxVisits),
      ∀ v ∈ (runIngest cf emptyStore rs).visits, v.vid ≠ r0.vid := by
  intro r0 h0 v hv
  rw [runIngest_visits_of_distinct cf rs hp hts, ← List.map_drop] at hv
  obtain ⟨a, ha, rfl⟩ := List.mem_map.mp hv
  have hsplit := List.take_append_drop (rs.length - maxVisits) rs
  have hp2 := hp
  rw [← hsplit, List.pairwise_append] at hp2
  obtain ⟨_, _, hcross⟩ := hp2
  have hne : r0.vid ≠ a.vid := hcross r0 h0 a ha
  simpa [normalizeVisit] using Ne.symm hne

/-! ## Lemmas about the stable by-bytes sort -/

theorem mem_insertByBytesDesc (x z : (Option String × Agg)) :
    ∀ l : List (Option String × Agg),
      z ∈ insertByBytesDesc x l ↔ z = x ∨ z ∈ l := by
  intro l
  induction l with
  | nil => simp [insertByBytesDesc]
  | cons y ys ih =>
      by_cases h : x.2.bytes ≤ y.2.bytes
      · simp only [insertByBytesDesc, if_pos h, List.mem_cons, ih]
        tauto
      · simp only [insertByBytesDesc, if_neg h, List.mem_cons]

theorem pairwise_insertByBytesDesc (x : (Option String × Agg)) :
    ∀ l : List (Option String × Agg),
      l.Pairwise (fun a b => b.2.bytes ≤ a.2.bytes) →
      (insertByBytesDesc x l).Pairwise (fun a b => b.2.bytes ≤ a.2.bytes) := by
  intro l
  induction l with
  | nil => intro _; simp [insertByBytesDesc]
  | cons y ys ih =>
      intro hp
      rw [List.pairwise_cons] at hp
      obtain ⟨hy, hys⟩ := hp
      by_cases h : x.2.bytes ≤ y.2.bytes
      · rw [insertByBytesDesc, if_pos h, List.pairwise_cons]
        constructor
        · intro z hz
          rcases (mem_insertByBytesDesc x z ys).mp hz with rfl | hz2
          · exact h
          · exact hy z hz2
        · exact ih hys
      · rw [insertByBytesDesc, if_neg h, List.pairwise_cons]
        constructor
        · intro z hz
          rcases List.mem_cons.mp hz with rfl | hz2
          · exact le_of_lt (lt_of_not_le h)
          · exact le_trans (hy z hz2) (le_of_lt (lt_of_not_le h))
        · rw [List.pairwise_cons]
          exact ⟨hy, hys⟩

theorem filter_insertByBytesDesc (x : (Option String × Agg)) (b : Rat) :
    ∀ l : List (Option String × Agg),
      l.Pairwise (fun a b => b.2.bytes ≤ a.2.bytes) →
      (insertByBytesDesc x l).filter (fun e => decide (e.2.bytes = b))
        = if x.2.bytes = b then
            l.filter (fun e => decide (e.2.bytes = b)) ++ [x]
          else l.filter (fun e => decide (e.2.bytes = b)) := by
  intro l
  induction l with
  | nil =>
      intro _
      by_cases hx : x.2.bytes = b <;> simp [insertByBytesDesc, hx]
  | cons y ys ih =>
      intro hp
      rw [List.pairwise_cons] at hp
      obtain ⟨hy, hys⟩ := hp
      by_cases h : x.2.bytes ≤ y.2.bytes
      · rw [insertByBytesDesc, if_pos h]
        by_cases hyb : y.2.bytes = b
        · simp only [List.filter_cons, hyb, decide_eq_true_eq, if_pos rfl,
            ih hys]
          by_cases hx : x.2.bytes = b <;> simp [hx]
        · simp only [List.filter_cons, decide_eq_true_eq, hyb, if_false,
            ih hys]
      · rw [insertByBytesDesc, if_neg h]
        by_cases hx : x.2.bytes = b
        · have hyslt : ∀ z ∈ y :: ys, z.2.bytes ≠ b := by
            intro z hz
            rcases List.mem_cons.mp hz with rfl | hz2
            · intro e
              exact h (le_of_eq (by rw [hx, e]))
            · intro e
              refine h ?_
              rw [hx, ← e]
              exact hy z hz2
          have hnil : (y :: ys).filter (fun e => decide (e.2.bytes = b)) = [] := by
            rw [List.filter_eq_nil_iff]
            intro z hz
            simpa using hyslt z hz
          simp [List.filter_cons, hx, hnil]
        · simp [List.filter_cons, hx]

theorem sortByBytesDesc_invariants (b : Rat) :
    ∀ (l acc : List (Option String × Agg)),
      acc.Pairwise (fun a b => b.2.bytes ≤ a.2.bytes) →
      (l.foldl (fun acc x => insertByBytesDesc x acc) acc).Pairwise
          (fun a b => b.2.bytes ≤ a.2.bytes)
        ∧ (l.foldl (fun acc x => insertByBytesDesc x acc) acc).filter
            (fun e => decide (e.2.bytes = b))
          = acc.filter (fun e => decide (e.2.bytes = b))
            ++ l.filter (fun e => decide (e.2.bytes = b)) := by
  intro l
  induction l with
  | nil => intro acc h; simp [h]
  | cons x xs ih =>
      intro acc h
      have hstep := ih (insertByBytesDesc x acc) (pairwise_insertByBytesDesc x acc h)
      refine ⟨hstep.1, ?_⟩
      rw [List.foldl_cons] at *
      rw [hstep.2, filter_insertByBytesDesc x b acc h, List.filter_cons]
      by_cases hx : x.2.bytes = b <;> simp [hx]

theorem length_insertByBytesDesc (x : (Option String × Agg)) :
    ∀ l : List (Option String × Agg),
      (insertByBytesDesc x l).length = l.length + 1 := by
  intro l
  induction l with
  | nil => simp [insertByBytesDesc]
  | cons y ys ih =>
      by_cases h : x.2.bytes ≤ y.2.bytes <;>
        simp [insertByBytesDesc, h, ih] <;> omega

theorem length_sortByBytesDesc :
    ∀ (l acc : List (Option String × Agg)),
      (l.foldl (fun acc x => insertByBytesDesc x acc) acc).length
        = acc.length + l.length := by
  intro l
  induction l with
  | nil => intro acc; simp
  | cons x xs ih =>
      intro acc
      rw [List.foldl_cons, ih, length_insertByBytesDesc]
      simp
      omega

/-! ## Small computation helpers for the claim theorems -/

theorem range_seven : List.range 7 = [0, 1, 2, 3, 4, 5, 6] := rfl

/-! ## Claim theorems -/

/-- C1: the claim says a second ingest of the same record leaves log size at
+1 and every aggregate total reflecting exactly one application.  The code
does keep the log at one copy, but it increments the aggregates on the
duplicate call too: after ingesting `rDup` twice, the origin bucket holds
`{visits: 2, bytes: 200, co2: 200}` instead of `{1, 100, 100}` — evidence
for the duplicate-handling code bug in `saveVisit`. -/
theorem duplicate_ingest_double_counts_aggregates :
    (runIngest 1 emptyStore [rDup, rDup]).visits.length = 1
    ∧ lookupA (some "a.test") (runIngest 1 emptyStore [rDup, rDup]).byOrigin
        = some ⟨2, 200, 200⟩
    ∧ lookupA (some "a.test") (runIngest 1 emptyStore [rDup, rDup]).byOrigin
        ≠ some ⟨1, 100, 100⟩ := by
  refine ⟨?_, ?_, ?_⟩ <;>
    norm_num [runIngest, saveVisit, normalizeVisit, updAssoc, lookupA, bump,
      trimTo, maxVisits, emptyStore, Agg.init, rDup]

/-- C2: the claim says the alert window is `[now - windowMinutes, now]` in
literal minutes, so three 2 g records of the origin four minutes old must
yield `windowSum = 6` and one alert.  The code computes
`windowMs = windowMinutes * 10 * 1000` (10 s per "minute"), so with
`windowMinutes = 10` the records fall outside the 100 s window: the
evaluation tick computes `windowSum = 0` and fires nothing, while the
literal-minutes sum of the same records is 6 ≥ 5. -/
theorem alert_window_uses_ten_second_minutes :
    evaluateAlert ⟨true, 5, 0, 10, 5⟩ 1000
        [fourMinVisit "x1", fourMinVisit "x2", fourMinVisit "x3"]
        "a.test" now0 none
      = ⟨false, some 0, none⟩
    ∧ windowSumLiteralMinutes
        [fourMinVisit "x1", fourMinVisit "x2", fourMinVisit "x3"]
        "a.test" now0 10 = 6 := by
  constructor <;>
    norm_num [evaluateAlert, windowSumFor, windowSumLiteralMinutes,
      orDefaultNat, orDefaultRat, fourMinVisit, now0]

/-- C3: the claim says no second alert may fire strictly within
`cooldownMinutes` literal minutes of `lastAlertAt`.  The code computes
`cooldownMs = cooldownMinutes * 10 * 1000` (10 s per "minute"), so with
`cooldownMinutes = 5` a qualifying tick only 60 s after the last alert —
strictly inside the literal 5-minute cooldown — fires again. -/
theorem alert_cooldown_uses_ten_second_minutes :
    evaluateAlert ⟨true, 5, 30, 10, 5⟩ 1000
        [recentVisit "y1", recentVisit "y2", recentVisit "y3"]
        "a.test" now0 (some (now0 - 60000))
      = ⟨true, some 6, some now0⟩
    ∧ now0 - (now0 - 60000) < 5 * 60 * 1000 := by
  constructor <;>
    norm_num [evaluateAlert, windowSumFor, orDefaultNat, orDefaultRat,
      recentVisit, now0]

/-- C4: the log never exceeds the capacity of 10 000; the capacity trim is
invisible to both aggregate maps; and for distinct, timestamped records the
retained log is exactly the newest `maxVisits` normalized records in
insertion order, every record older than the cut is absent by id, and the
aggregate visit totals still count every ingested record. -/
theorem log_capacity_and_eviction_preserves_aggregates (cf : Rat) :
    (∀ rs, (runIngest cf emptyStore rs).visits.length ≤ maxVisits)
    ∧ (∀ s r, (saveVisit cf s r).byOrigin = (saveVisitNoEvict cf s r).byOrigin
        ∧ (saveVisit cf s r).byDay = (saveVisitNoEvict cf s r).byDay)
    ∧ (∀ rs : List VisitRec,
        rs.Pairwise (fun a b => a.vid ≠ b.vid) →
        (∀ r ∈ rs, r.ts.isSome) →
        (runIngest cf emptyStore rs).visits
            = (rs.map (normalizeVisit cf)).drop (rs.length - maxVisits)
        ∧ (∀ r0 ∈ rs.take (rs.length - maxVisits),
            ∀ v ∈ (runIngest cf emptyStore rs).visits, v.vid ≠ r0.vid)
        ∧ totalAggVisits (runIngest cf emptyStore rs).byOrigin = rs.length
        ∧ totalAggVisits (runIngest cf emptyStore rs).byDay = rs.length) := by
  refine ⟨?_, ?_, ?_⟩
  · intro rs
    exact runIngest_length_le cf rs emptyStore (by simp [emptyStore])
  · intro s r
    cases hts : r.ts <;> simp [saveVisit, saveVisitNoEvict, hts]
  · intro rs hp hts
    have hcount : rs.countP (fun r => r.ts.isSome) = rs.length := by
      rw [List.countP_eq_length]
      intro a ha
      exact hts a ha
    refine ⟨runIngest_visits_of_distinct cf rs hp hts,
      runIngest_oldest_absent cf rs hp hts, ?_, ?_⟩
    · rw [totalAggVisits_runIngest_byOrigin, hcount]
      simp [emptyStore, totalAggVisits]
    · rw [totalAggVisits_runIngest_byDay, hcount]
      simp [emptyStore, totalAggVisits]

/-- Witness for C4: a concrete instantiation of the hypotheses of the
distinct-records part with two records. -/
theorem log_capacity_witness :
    (([rW1, rW2] : List VisitRec).Pairwise (fun a b => a.vid ≠ b.vid)
      ∧ ∀ r ∈ ([rW1, rW2] : List VisitRec), r.ts.isSome)
    ∧ ((runIngest 1 emptyStore [rW1, rW2]).visits
          = (([rW1, rW2] : List VisitRec).map (normalizeVisit 1)).drop
              (([rW1, rW2] : List VisitRec).length - maxVisits)
      ∧ (∀ r0 ∈ ([rW1, rW2] : List VisitRec).take
            (([rW1, rW2] : List VisitRec).length - maxVisits),
          ∀ v ∈ (runIngest 1 emptyStore [rW1, rW2]).visits, v.vid ≠ r0.vid)
      ∧ totalAggVisits (runIngest 1 emptyStore [rW1, rW2]).byOrigin = 2
      ∧ totalAggVisits (runIngest 1 emptyStore [rW1, rW2]).byDay = 2) :=
  ⟨⟨by decide, by decide⟩,
   (log_capacity_and_eviction_preserves_aggregates 1).2.2 [rW1, rW2]
     (by decide) (by decide)⟩

/-- C5 counterexample: after ingesting the same record twice, the origin
bucket counts 2 visits while only 1 record of that origin is present in the
log, so `visitCount` does not count the records still present. -/
theorem aggregate_count_exceeds_log_count :
    aggVisits (runIngest 1 emptyStore [rB1, rB1]).byOrigin (some "b.test") = 2
    ∧ ((runIngest 1 emptyStore [rB1, rB1]).visits.filter
        (fun v => v.origin == some "b.test")).length = 1
    ∧ aggVisits (runIngest 1 emptyStore [rB1, rB1]).byOrigin (some "b.test")
        ≠ ((runIngest 1 emptyStore [rB1, rB1]).visits.filter
            (fun v => v.origin == some "b.test")).length := by
  refine ⟨?_, ?_, ?_⟩ <;>
    norm_num [runIngest, saveVisit, normalizeVisit, updAssoc, lookupA, bump,
      trimTo, maxVisits, emptyStore, Agg.init, rB1, aggVisits]

/-- C5 amended: after every ingest sequence, each day and origin
`visitCount` equals the number of `saveVisit` calls with a usable timestamp
whose record maps to that key — counting duplicate-id calls and calls whose
record was later evicted, so the counter can exceed what remains in the
log. -/
theorem visit_counts_equal_ingest_call_counts (cf : Rat)
    (rs : List VisitRec) :
    (∀ k, aggVisits (runIngest cf emptyStore rs).byOrigin k
        = rs.countP (fun r => r.ts.isSome && r.origin == k))
    ∧ (∀ d, aggVisits (runIngest cf emptyStore rs).byDay d
        = rs.countP (fun r => r.ts.map dayOf == some d)) := by
  constructor
  · intro k
    rw [aggVisits_runIngest_byOrigin]
    simp [emptyStore, aggVisits, lookupA]
  · intro d
    rw [aggVisits_runIngest_byDay]
    simp [emptyStore, aggVisits, lookupA]

/-- C6 counterexample: a record missing both `id` and `origin` (with a
valid timestamp) is not rejected by `saveVisit`: it is appended to the log
and counted in an aggregate bucket keyed by the absent origin. -/
theorem missing_id_and_origin_still_appended :
    (saveVisit 1 emptyStore rNoId).visits = [normalizeVisit 1 rNoId]
    ∧ aggVisits (saveVisit 1 emptyStore rNoId).byOrigin none = 1 := by
  constructor <;>
    norm_num [saveVisit, normalizeVisit, updAssoc, lookupA, bump, trimTo,
      maxVisits, emptyStore, Agg.init, rNoId, aggVisits]

/-- C6 amended: `saveVisit` performs no id/origin validation: a record
missing both is accepted exactly like any other record — appended (then
capacity-trimmed) and aggregated under the absent-origin bucket — and no
fault interrupts the update (the embedding is total).  The only rejection
hypothesis needed is that no stored visit already carries an absent id,
since the id-dedup compares the missing field as a value. -/
theorem invalid_record_accepted_not_rejected (cf : Rat) (s : Store)
    (r : VisitRec) (t : Int) (h1 : r.vid = none) (h2 : r.origin = none)
    (h3 : r.ts = some t) (h4 : ∀ v ∈ s.visits, v.vid ≠ none) :
    (saveVisit cf s r).visits
        = trimTo maxVisits (s.visits ++ [normalizeVisit cf r])
    ∧ aggVisits (saveVisit cf s r).byOrigin none
        = aggVisits s.byOrigin none + 1 := by
  have hany : s.visits.any (fun v => v.vid == (normalizeVisit cf r).vid)
      = false := by
    rw [List.any_eq_false]
    intro v hv
    simp only [normalizeVisit, h1, beq_iff_eq]
    exact h4 v hv
  constructor
  · simp [saveVisit, h3, hany]
  · rw [aggVisits_saveVisit_byOrigin]
    simp [h3, h2]

/-- Witness for C6: the amended statement instantiated at the concrete
invalid record `rNoId` on the empty store. -/
theorem invalid_record_accepted_witness :
    (rNoId.vid = none ∧ rNoId.origin = none ∧ rNoId.ts = some 0
      ∧ ∀ v ∈ emptyStore.visits, v.vid ≠ none)
    ∧ ((saveVisit 1 emptyStore rNoId).visits
          = trimTo maxVisits (emptyStore.visits ++ [normalizeVisit 1 rNoId])
      ∧ aggVisits (saveVisit 1 emptyStore rNoId).byOrigin none
          = aggVisits emptyStore.byOrigin none + 1) :=
  ⟨⟨rfl, rfl, rfl, by simp [emptyStore]⟩,
   invalid_record_accepted_not_rejected 1 emptyStore rNoId 0 rfl rfl rfl
     (by simp [emptyStore])⟩

/-- C7: for any state of the by-day aggregates, the 7-day chart series has
exactly 7 entries, in oldest-first order (entry `i` belongs to calendar day
`today - 6 + i`), each entry being that day's CO2 total or 0 when the day
has no bucket. -/
theorem day_snapshot_seven_entries_oldest_first (today : Int)
    (byDay : List (Int × Agg)) :
    (co2PerDay today 7 byDay).length = 7
    ∧ ∀ i : Fin 7, (co2PerDay today 7 byDay).getD i.val 0
        = dayCo2 byDay (today - 6 + (i.val : Int)) := by
  constructor
  · rw [co2PerDay, List.length_map, daysArr, List.length_map,
      List.length_range]
  · intro i
    fin_cases i <;>
      simp only [co2PerDay, daysArr, range_seven, List.map_cons,
        List.map_nil, List.getD, List.getElem?_cons_zero,
        List.getElem?_cons_succ, Option.getD_some, Fin.val] <;>
      norm_num <;>
      (try (congr 1 <;> omega))

/-- C8: the top-sites listing sorts the origin entries descending by
`totalBytes` with ties kept in first-seen order (the per-bytes-value
sublists of the sorted output equal those of the input), truncates to
`topK`, and on the P7 instance (A:300 first, B:300, C:100) the top-2
snapshot is `[A, B]`. -/
theorem top_origin_snapshot_sorted_stable_truncated :
    (∀ m, (sortByBytesDesc m).Pairwise (fun a b => b.2.bytes ≤ a.2.bytes))
    ∧ (∀ m b, (sortByBytesDesc m).filter (fun e => decide (e.2.bytes = b))
        = m.filter (fun e => decide (e.2.bytes = b)))
    ∧ (∀ k m, (byOriginSnapshot k m).length = min k m.length)
    ∧ byOriginSnapshot 2 demoOrigins
        = [(some "A", ⟨1, 300, 0⟩), (some "B", ⟨1, 300, 0⟩)] := by
  refine ⟨?_, ?_, ?_, ?_⟩
  · intro m
    exact (sortByBytesDesc_invariants 0 m [] (by simp)).1
  · intro m b
    have h := (sortByBytesDesc_invariants b m [] (by simp)).2
    simpa [sortByBytesDesc] using h
  · intro k m
    simp [byOriginSnapshot, sortByBytesDesc, List.length_take,
      length_sortByBytesDesc]
  · norm_num [byOriginSnapshot, sortByBytesDesc, insertByBytesDesc,
      demoOrigins]

/-- C9: every record retained in the log carries
`estimatedCO2_g = transferBytes * co2Factor` — the caller-supplied value is
overwritten at ingestion — and consequently every aggregate CO2 total is
the factor-weighted sum of the ingested byte counts for its key. -/
theorem co2_recomputed_from_bytes_at_ingest (cf : Rat)
    (rs : List VisitRec) :
    (∀ v ∈ (runIngest cf emptyStore rs).visits,
        v.estimatedCO2_g = v.transferBytes.getD 0 * cf)
    ∧ (∀ k, aggCo2 (runIngest cf emptyStore rs).byOrigin k
        = ((rs.filter (fun r => r.ts.isSome && r.origin == k)).map
            (fun r => r.transferBytes.getD 0)).sum * cf)
    ∧ (∀ d, aggCo2 (runIngest cf emptyStore rs).byDay d
        = ((rs.filter (fun r => r.ts.map dayOf == some d)).map
            (fun r => r.transferBytes.getD 0)).sum * cf) := by
  refine ⟨?_, ?_, ?_⟩
  · exact runIngest_co2_normalized cf rs emptyStore (by simp [emptyStore])
  · intro k
    rw [aggCo2_runIngest_byOrigin]
    simp [emptyStore, aggCo2, lookupA]
  · intro d
    rw [aggCo2_runIngest_byDay]
    simp [emptyStore, aggCo2, lookupA]

/-- Witness for C9: the membership hypothesis discharged on a one-record
run; the caller supplied `estimatedCO2_g = 0` but the stored record carries
`3 * 2`. -/
theorem co2_recomputed_witness :
    normalizeVisit 2 rW1 ∈ (runIngest 2 emptyStore [rW1]).visits
    ∧ (normalizeVisit 2 rW1).estimatedCO2_g
        = (normalizeVisit 2 rW1).transferBytes.getD 0 * 2 := by
  have hm : normalizeVisit 2 rW1 ∈ (runIngest 2 emptyStore [rW1]).visits := by
    simp [runIngest, saveVisit, emptyStore, trimTo, maxVisits, rW1]
  exact ⟨hm, (co2_recomputed_from_bytes_at_ingest 2 [rW1]).1 _ hm⟩

/-- C10 counterexample: `safeParseVisits` over a well-formed JSON string
returns the parsed value unchanged, which need not be an array: on the
string `"0"` (JSON for the number 0) it returns the number 0. -/
theorem parse_string_can_return_non_array :
    safeParseVisits parse0 (RawInput.str "0") = JSValue.vNum 0
    ∧ (JSValue.vNum 0).isArray = false :=
  ⟨rfl, rfl⟩

/-- C10 amended: `safeParseVisits` is total and never fails; it returns the
array itself for arrays, a singleton for objects, `[]` for absent/falsy
inputs and malformed JSON strings, and for a well-formed JSON string the
parsed value — which is the one case where the result may not be an
array. -/
theorem safeParseVisits_total_behaviour (parse : String → Option JSValue) :
    (∀ raw, (safeParseVisits parse raw).isArray = true
        ∨ ∃ s v, raw = RawInput.str s ∧ parse s = some v
            ∧ safeParseVisits parse raw = v)
    ∧ (∀ l, safeParseVisits parse (RawInput.arr l) = JSValue.vArr l)
    ∧ (∀ f, safeParseVisits parse (RawInput.obj f)
        = JSValue.vArr [JSValue.vObj f])
    ∧ safeParseVisits parse RawInput.undef = JSValue.vArr []
    ∧ (∀ s, parse s = none →
        safeParseVisits parse (RawInput.str s) = JSValue.vArr []) := by
  refine ⟨?_, fun l => rfl, fun f => rfl, rfl, ?_⟩
  · intro raw
    cases raw with
    | undef => left; rfl
    | null => left; rfl
    | bool b => cases b <;> exact Or.inl rfl
    | num q =>
        by_cases h : q = 0 <;>
          simp [safeParseVisits, RawInput.isFalsy, h, JSValue.isArray]
    | str s =>
        by_cases hs : s.isEmpty
        · left
          simp [safeParseVisits, RawInput.isFalsy, hs, JSValue.isArray]
        · cases hp : parse s with
          | none =>
              left
              simp [safeParseVisits, RawInput.isFalsy, hs, hp,
                JSValue.isArray]
          | some v =>
              right
              exact ⟨s, v, rfl, hp,
                by simp [safeParseVisits, RawInput.isFalsy, hs, hp]⟩
    | arr l => left; rfl
    | obj f => left; rfl
  · intro s hp
    by_cases hs : s.isEmpty <;>
      simp [safeParseVisits, RawInput.isFalsy, hs, hp]

/-- Witness for C10: the malformed-string case of the amended statement at
a concrete string the oracle rejects. -/
theorem safeParseVisits_total_behaviour_witness :
    parse0 "zz" = none
    ∧ safeParseVisits parse0 (RawInput.str "zz") = JSValue.vArr [] :=
  ⟨rfl, (safeParseVisits_total_behaviour parse0).2.2.2.2 "zz" rfl⟩
